import Mathlib

/-!
# Verification of the OpflowQNN adapter

A shallow embedding of `qiskit_machine_learning/neural_networks/opflow_qnn.py`
(class `OpflowQNN`): output-shape inference over opflow operator trees,
batched parameter binding, the forward pass, and the two backward passes
(batched and per-row).  External collaborators (the opflow evaluation and
gradient engine, the circuit samplers and their caches) are modelled as
explicit function fields; numpy arrays are modelled as shape-plus-flat-data
records over `ℚ`, and numpy's `reshape(-1, *dims)` semantics (including its
refusal to infer the `-1` dimension when the known dimensions multiply to
zero) are modelled explicitly.
-/

namespace OpflowQNNModel

/-- Python exception classes that the adapter's code paths can raise:
`QiskitMachineLearningError` (shape inconsistency in `_get_output_shape_from_op`),
`IndexError` (out-of-range subscripts, `shapes[0]` on an empty list),
`TypeError`/`AttributeError` from using an absent (`None`) array, and numpy's
`ValueError` (impossible `reshape` / broadcast). -/
inductive Err where
  | qmlShapeError
  | indexError
  | noneError
  | valueError
deriving DecidableEq, Repr

/-- A numpy ndarray: its shape and its flat (row-major) data. -/
structure NDArr where
  shape : List Nat
  data : List ℚ
deriving DecidableEq, Repr

/-- `np.zeros(shape)`. -/
def zerosArr (shape : List Nat) : NDArr :=
  ⟨shape, List.replicate shape.prod 0⟩

/-- An opflow operator tree, as seen by `_get_output_shape_from_op`.
The source checks `type(op) == ListOp` ("on purpose, to prevent subclasses"),
so the embedding distinguishes three cases: an exact `ListOp` with its
children and its `combo_fn`, a strict subclass of `ListOp` (also carrying
children and a `combo_fn`, but deliberately not recursed into), and any
other (leaf) operator. -/
inductive Op where
  | leaf : Op
  | listOp : List Op → (NDArr → NDArr) → Op
  | listOpSub : List Op → (NDArr → NDArr) → Op

/-- `np.all([shape == shapes[0] for shape in shapes])`: every element equals
the head (vacuously true for the empty list, since the comprehension body
never runs). -/
def allEqHead : List (List Nat) → Bool
  | [] => true
  | s :: rest => rest.all (fun t => t == s)

/-- The zero-filled placeholder handed to `combo_fn` by
`_get_output_shape_from_op`: `np.zeros((len(oplist)))` — a flat 1-D vector —
when the shared child shape is `(1,)`, and `np.zeros((len(oplist), *shape))`
otherwise. -/
def comboPlaceholder (n : Nat) (childShape : List Nat) : NDArr :=
  if childShape = [1] then zerosArr [n] else zerosArr (n :: childShape)

mutual

/-- `OpflowQNN._get_output_shape_from_op`: `(1,)` for anything that is not
exactly a `ListOp`; for an exact `ListOp`, infer all children's shapes,
raise `QiskitMachineLearningError` unless they are all equal, then apply
`combo_fn` to the zero placeholder and return its shape (`shapes[0]` on an
empty children list raises `IndexError`). -/
def inferShape : Op → Except Err (List Nat)
  | .leaf => .ok [1]
  | .listOpSub _ _ => .ok [1]
  | .listOp cs f =>
    match inferShapes cs with
    | .error e => .error e
    | .ok shapes =>
      if allEqHead shapes then
        match shapes with
        | [] => .error .indexError
        | s0 :: _ => .ok (f (comboPlaceholder cs.length s0)).shape
      else .error .qmlShapeError

/-- The `for op_ in op.oplist` loop of `_get_output_shape_from_op`:
children's shapes, left to right, propagating the first error. -/
def inferShapes : List Op → Except Err (List (List Nat))
  | [] => .ok []
  | o :: os =>
    match inferShape o with
    | .error e => .error e
    | .ok s =>
      match inferShapes os with
      | .error e => .error e
      | .ok ss => .ok (s :: ss)

end

/-- An opflow `Parameter` handle, identified by a key. -/
abbrev Param := Nat

/-- A 2-D numpy array of parameter values: a list of rows plus the declared
column count (numpy arrays are rectangular; `ncols` is `shape[1]`). -/
structure Mat where
  data : List (List ℚ)
  ncols : Nat

/-- `input_data.shape[0]`: the number of batch rows. -/
def Mat.nrows (m : Mat) : Nat := m.data.length

/-- `input_data[row, j]`. -/
def Mat.entry (m : Mat) (r j : Nat) : ℚ := (m.data.getD r []).getD j 0

/-- `input_data[:, j].tolist()`: the `j`-th column. -/
def Mat.col (m : Mat) (j : Nat) : List ℚ := m.data.map (fun row => row.getD j 0)

/-- A parameter dictionary mapping each parameter to a list of values, one
per batch row (the batched paths). -/
abbrev BatchBinding := List (Param × List ℚ)

/-- A parameter dictionary mapping each parameter to a scalar (the per-row
path). -/
abbrev RowBinding := List (Param × ℚ)

/-- Internal state of the external `CircuitSampler`s (their caches), threaded
through sampler invocations. -/
abbrev Cache := Nat

/-- The external opflow evaluation engine: the observable numeric behavior of
`np.real(… .eval())` on the adapter's converted forward and gradient
expressions, for each of the code's call patterns.  Sampler-backed
evaluations (`CircuitSampler.convert` followed by `eval`, including the
re-binding workaround on the gradient path) consume and produce the sampler's
cache; the direct `bind_parameters` + `eval` evaluations are pure. -/
structure Engine where
  samplerFwd : Cache → BatchBinding → List ℚ × Cache
  directFwd : BatchBinding → List ℚ
  samplerGradBatch : Cache → BatchBinding → List (List ℚ) × Cache
  directGradBatch : BatchBinding → List (List ℚ)
  samplerGradRow : Cache → RowBinding → List ℚ × Cache
  directGradRow : RowBinding → List ℚ

/-- The constructed `OpflowQNN` adapter: the parameter partition, the
parameter list the gradient expression was differentiated against
(`self.gradient.convert(operator, self.input_params + self.weight_params)`),
the counts and output shape passed to the `NeuralNetwork` base constructor,
whether a quantum instance (hence the two samplers) is present, and the
external evaluation engine for its converted expressions. -/
structure OpflowQNN where
  inputParams : List Param
  weightParams : List Param
  gradTargetParams : List Param
  numInputs : Nat
  numWeights : Nat
  outputShape : List Nat
  hasSampler : Bool
  engine : Engine

/-- `OpflowQNN.__init__`: derive the gradient expression's differentiation
parameter list (inputs first, weights second), infer the output shape from
the operator (propagating its error, which aborts construction), and record
the counts handed to the base-class constructor. -/
def OpflowQNN.init (operator : Op) (inputParams weightParams : List Param)
    (hasQuantumInstance : Bool) (engine : Engine) : Except Err OpflowQNN :=
  match inferShape operator with
  | .error e => .error e
  | .ok shape =>
    .ok { inputParams := inputParams
          weightParams := weightParams
          gradTargetParams := inputParams ++ weightParams
          numInputs := inputParams.length
          numWeights := weightParams.length
          outputShape := shape
          hasSampler := hasQuantumInstance
          engine := engine }

/-- `np.array(data).reshape(-1, *dims)`: numpy infers the `-1` dimension as
`len(data) / prod(dims)`, and raises `ValueError` when `prod(dims)` is zero
or does not divide the data size. -/
def npReshapeNeg1 (data : List ℚ) (dims : List Nat) : Except Err NDArr :=
  if dims.prod = 0 then .error .valueError
  else if dims.prod ∣ data.length then .ok ⟨data.length / dims.prod :: dims, data⟩
  else .error .valueError

/-- `{p: input_data[:, i].tolist() for i, p in enumerate(self.input_params)}`:
subscripting `None` raises `TypeError` and an out-of-range column raises
`IndexError`, but only when the comprehension actually runs (a nonempty
parameter list). -/
def inputPairs : List Param → Option Mat → Except Err BatchBinding
  | [], _ => .ok []
  | _ :: _, none => .error .noneError
  | q :: qs, some m =>
    if (q :: qs).length ≤ m.ncols then
      .ok ((q :: qs).enum.map (fun ip => (ip.2, m.col ip.1)))
    else .error .indexError

/-- `{p: [weights[i]] * input_data.shape[0] for i, p in enumerate(self.weight_params)}`,
with Python's evaluation order: `weights[0]` is subscripted first (`TypeError`
on `None`, `IndexError` when empty), then `input_data.shape[0]` is read
(`AttributeError` on `None`), then the remaining weight subscripts
(`IndexError` when the weight list is shorter than the parameter list). -/
def weightPairs : List Param → Option Mat → Option (List ℚ) → Except Err BatchBinding
  | [], _, _ => .ok []
  | _ :: _, _, none => .error .noneError
  | _ :: _, none, some ws =>
    if ws.length = 0 then .error .indexError else .error .noneError
  | q :: qs, some m, some ws =>
    if ws.length = 0 then .error .indexError
    else if (q :: qs).length ≤ ws.length then
      .ok ((q :: qs).enum.map (fun ip => (ip.2, List.replicate m.nrows (ws.getD ip.1 0))))
    else .error .indexError

/-- The combined parameter dictionary built identically at the top of
`_forward` and `_backward_batch`: input columns first, then the broadcast
weights. -/
def batchBinding (a : OpflowQNN) (input : Option Mat) (weights : Option (List ℚ)) :
    Except Err BatchBinding :=
  match inputPairs a.inputParams input with
  | .error e => .error e
  | .ok ip =>
    match weightPairs a.weightParams input weights with
    | .error e => .error e
    | .ok wp => .ok (ip ++ wp)

/-- The raw forward evaluation: sampler conversion when a circuit sampler
exists (threading its cache), otherwise direct binding and evaluation. -/
def fwdRaw (a : OpflowQNN) (c : Cache) (pv : BatchBinding) : List ℚ × Cache :=
  if a.hasSampler then a.engine.samplerFwd c pv else (a.engine.directFwd pv, c)

/-- The raw batched gradient evaluation of `_backward_batch` (sampler
conversion plus the re-binding workaround, or direct binding). -/
def gradBatchRaw (a : OpflowQNN) (c : Cache) (pv : BatchBinding) : List (List ℚ) × Cache :=
  if a.hasSampler then a.engine.samplerGradBatch c pv else (a.engine.directGradBatch pv, c)

/-- The raw single-row gradient evaluation of `_backward`. -/
def gradRowRaw (a : OpflowQNN) (c : Cache) (sb : RowBinding) : List ℚ × Cache :=
  if a.hasSampler then a.engine.samplerGradRow c sb else (a.engine.directGradRow sb, c)

/-- `OpflowQNN._forward`: build the batched binding, evaluate, and
`result.reshape(-1, *self.output_shape)`. -/
def OpflowQNN.fwd (a : OpflowQNN) (c : Cache) (input : Option Mat)
    (weights : Option (List ℚ)) : Except Err NDArr × Cache :=
  match batchBinding a input weights with
  | .error e => (.error e, c)
  | .ok pv =>
    let rc := fwdRaw a c pv
    (npReshapeNeg1 rc.1 a.outputShape, rc.2)

/-- The identical tails of `_backward_batch` and `_backward` (lines 136–140
and 166–170): slice the gradient rows at column `num_inputs` (numpy basic
slicing, which clamps), flatten, and reshape each part with
`reshape(-1, *output_shape, count)` — input gradients first. -/
def splitGrads (a : OpflowQNN) (rows : List (List ℚ)) : Except Err (NDArr × NDArr) :=
  match npReshapeNeg1 ((rows.map (fun r => r.take a.numInputs)).flatten)
      (a.outputShape ++ [a.numInputs]) with
  | .error e => .error e
  | .ok inputGrad =>
    match npReshapeNeg1 ((rows.map (fun r => r.drop a.numInputs)).flatten)
        (a.outputShape ++ [a.numWeights]) with
    | .error e => .error e
    | .ok weightsGrad => .ok (inputGrad, weightsGrad)

/-- `OpflowQNN._backward_batch`: batched binding, one gradient evaluation,
then split and reshape. -/
def OpflowQNN.backwardBatch (a : OpflowQNN) (c : Cache) (input : Option Mat)
    (weights : Option (List ℚ)) : Except Err (NDArr × NDArr) × Cache :=
  match batchBinding a input weights with
  | .error e => (.error e, c)
  | .ok pv =>
    let rc := gradBatchRaw a c pv
    (splitGrads a rc.1, rc.2)

/-- The payload of `{p: input_data[row, j].tolist() for j, p in enumerate(self.input_params)}`. -/
def inputRowVals (ps : List Param) (m : Mat) (r : Nat) : RowBinding :=
  ps.enum.map (fun jp => (jp.2, m.entry r jp.1))

/-- The payload of `{p: weights[j] for j, p in enumerate(self.weight_params)}`. -/
def weightRowVals (ps : List Param) (ws : List ℚ) : RowBinding :=
  ps.enum.map (fun jp => (jp.2, ws.getD jp.1 0))

/-- The per-row parameter dictionary of `_backward`, with the row's input
scalars and the weight scalars, including each subscript's failure modes:
the input comprehension runs first (`IndexError` on an out-of-range column),
then the weight comprehension (`TypeError` on absent weights, `IndexError`
on an out-of-range weight subscript). -/
def rowBindingAux : List Param → List Param → Mat → Option (List ℚ) → Nat →
    Except Err RowBinding
  | [], [], _, _, _ => .ok []
  | [], _ :: _, _, none, _ => .error .noneError
  | [], wq :: wqs, _, some ws, _ =>
    if (wq :: wqs).length ≤ ws.length then .ok (weightRowVals (wq :: wqs) ws)
    else .error .indexError
  | q :: qs, [], m, _, r =>
    if (q :: qs).length ≤ m.ncols then .ok (inputRowVals (q :: qs) m r)
    else .error .indexError
  | q :: qs, _ :: _, m, none, _ =>
    if (q :: qs).length ≤ m.ncols then .error .noneError
    else .error .indexError
  | q :: qs, wq :: wqs, m, some ws, r =>
    if (q :: qs).length ≤ m.ncols then
      if (wq :: wqs).length ≤ ws.length then
        .ok (inputRowVals (q :: qs) m r ++ weightRowVals (wq :: wqs) ws)
      else .error .indexError
    else .error .indexError

/-- The per-row binding of `_backward` for the adapter's parameter
partition. -/
def rowBinding (a : OpflowQNN) (m : Mat) (weights : Option (List ℚ)) (r : Nat) :
    Except Err RowBinding :=
  rowBindingAux a.inputParams a.weightParams m weights r

/-- `grad_all[row, :] = grad`: numpy assigns a length-`k` slice from an array
of length `k`, broadcasts a single element, and otherwise raises
`ValueError`. -/
def fixRow (k : Nat) (gr : List ℚ) : Except Err (List ℚ) :=
  if gr.length = k then .ok gr
  else if gr.length = 1 then .ok (List.replicate k (gr.getD 0 0))
  else .error .valueError

/-- The `for row in range(input_data.shape[0])` loop of `_backward`: bind
the row, evaluate its gradient (threading the sampler cache), store the row
into `grad_all`; the first exception aborts the loop. -/
def backRows (a : OpflowQNN) (m : Mat) (weights : Option (List ℚ)) :
    List Nat → Cache → Except Err (List (List ℚ)) × Cache
  | [], c => (.ok [], c)
  | r :: rs, c =>
    match rowBinding a m weights r with
    | .error e => (.error e, c)
    | .ok sb =>
      let rc := gradRowRaw a c sb
      match fixRow (a.numInputs + a.numWeights) rc.1 with
      | .error e => (.error e, rc.2)
      | .ok row =>
        match backRows a m weights rs rc.2 with
        | (.error e, c2) => (.error e, c2)
        | (.ok rows, c2) => (.ok (row :: rows), c2)

/-- After the per-row loop: an error aborts `_backward`, and a filled
`grad_all` goes through the same split-and-reshape as the batched path. -/
def backFinish (a : OpflowQNN) (rc : Except Err (List (List ℚ)) × Cache) :
    Except Err (NDArr × NDArr) × Cache :=
  match rc with
  | (.error e, c2) => (.error e, c2)
  | (.ok rows, c2) => (splitGrads a rows, c2)

/-- `OpflowQNN._backward`: `np.zeros((input_data.shape[0], …))` reads
`input_data.shape` first (`AttributeError` on `None`), then the per-row
loop fills `grad_all`, then the same split-and-reshape as the batched
path. -/
def OpflowQNN.backward (a : OpflowQNN) (c : Cache) (input : Option Mat)
    (weights : Option (List ℚ)) : Except Err (NDArr × NDArr) × Cache :=
  match input with
  | none => (.error .noneError, c)
  | some m => backFinish a (backRows a m weights (List.range m.nrows) c)

/-! ## Helper lemmas -/

theorem npReshapeNeg1_eq_ok (data : List ℚ) (dims : List Nat) (n : Nat)
    (hpos : 0 < dims.prod) (hlen : data.length = n * dims.prod) :
    npReshapeNeg1 data dims = .ok ⟨n :: dims, data⟩ := by
  unfold npReshapeNeg1
  rw [if_neg (Nat.pos_iff_ne_zero.mp hpos), if_pos (hlen ▸ dvd_mul_left dims.prod n)]
  rw [hlen, Nat.mul_div_cancel _ hpos]

theorem npReshapeNeg1_data (data : List ℚ) (dims : List Nat) (arr : NDArr)
    (h : npReshapeNeg1 data dims = .ok arr) : arr.data = data := by
  unfold npReshapeNeg1 at h
  split at h
  · exact absurd h (by simp)
  · split at h
    · cases h; rfl
    · exact absurd h (by simp)

theorem flatten_take_length (p w : Nat) (rows : List (List ℚ))
    (h : ∀ r ∈ rows, r.length = p + w) :
    ((rows.map (fun r => r.take p)).flatten).length = rows.length * p := by
  induction rows with
  | nil => simp
  | cons r rs ih =>
    have hr : r.length = p + w := h r (by simp)
    have hrs := ih (fun r' hr' => h r' (by simp [hr']))
    have hmin : min p (p + w) = p := Nat.min_eq_left (Nat.le_add_right p w)
    simp only [List.map_cons, List.flatten_cons, List.length_append, List.length_take,
      List.length_cons, hrs, hr, hmin, Nat.succ_mul]
    omega

theorem flatten_drop_length (p w : Nat) (rows : List (List ℚ))
    (h : ∀ r ∈ rows, r.length = p + w) :
    ((rows.map (fun r => r.drop p)).flatten).length = rows.length * w := by
  induction rows with
  | nil => simp
  | cons r rs ih =>
    have hr : r.length = p + w := h r (by simp)
    have hrs := ih (fun r' hr' => h r' (by simp [hr']))
    simp only [List.map_cons, List.flatten_cons, List.length_append, List.length_drop,
      List.length_cons, hrs, hr, Nat.succ_mul]
    omega

/-! ## Concrete material for witnesses and counterexamples -/

/-- A concrete engine whose gradient of the single expectation value with
respect to the two parameters is the constant row `[2, 3]`, and whose
forward value over a two-row batch is `[1, 0]`; its samplers are
cache-transparent versions of the same evaluations. -/
def engW : Engine := {
  samplerFwd := fun c _ => ([1, 0], c)
  directFwd := fun _ => [1, 0]
  samplerGradBatch := fun c _ => ([[2, 3]], c)
  directGradBatch := fun _ => [[2, 3]]
  samplerGradRow := fun c _ => ([2, 3], c)
  directGradRow := fun _ => [2, 3]
}

/-- A concrete adapter with one input parameter, one weight parameter, a
leaf operator (output shape `(1,)`) and no quantum instance. -/
def adapPW : OpflowQNN := {
  inputParams := [0]
  weightParams := [1]
  gradTargetParams := [0, 1]
  numInputs := 1
  numWeights := 1
  outputShape := [1]
  hasSampler := false
  engine := engW
}

/-- A concrete engine for a network with a single parameter: the gradient of
the single expectation value is the constant `[2]`, and the forward value
over a two-row batch is `[1, 0]`. -/
def engNoW : Engine := {
  samplerFwd := fun c _ => ([1, 0], c)
  directFwd := fun _ => [1, 0]
  samplerGradBatch := fun c _ => ([[2]], c)
  directGradBatch := fun _ => [[2]]
  samplerGradRow := fun c _ => ([2], c)
  directGradRow := fun _ => [2]
}

/-- A concrete adapter with one input parameter and an empty weight-parameter
list. -/
def adapNoW : OpflowQNN := {
  inputParams := [0]
  weightParams := []
  gradTargetParams := [0]
  numInputs := 1
  numWeights := 0
  outputShape := [1]
  hasSampler := false
  engine := engNoW
}

/-- A concrete adapter with no input parameters and one weight parameter. -/
def adapNoI : OpflowQNN := {
  inputParams := []
  weightParams := [1]
  gradTargetParams := [1]
  numInputs := 0
  numWeights := 1
  outputShape := [1]
  hasSampler := false
  engine := engW
}

/-- A one-row, one-column input batch `[[4]]`. -/
def mat1 : Mat := ⟨[[4]], 1⟩

/-- A two-row, one-column input batch `[[0], [2]]`. -/
def mat2 : Mat := ⟨[[0], [2]], 1⟩

/-! ## C1: forward output shape -/

/-- C1: for an adapter whose batched parameter binding succeeds, whenever the
engine's evaluated forward result has one block of `output_shape.prod`
values per batch row (and that product is nonzero, as for every shape the
adapter can infer from a leaf), `_forward` returns an array of shape
`(n, *output_shape)` where `n` is the number of batch rows. -/
theorem c1_forward_shape (a : OpflowQNN) (c : Cache) (m : Mat)
    (weights : Option (List ℚ)) (pv : BatchBinding)
    (hpv : batchBinding a (some m) weights = .ok pv)
    (hprod : 0 < a.outputShape.prod)
    (hres : ((fwdRaw a c pv).1).length = m.nrows * a.outputShape.prod) :
    (a.fwd c (some m) weights).1 = .ok ⟨m.nrows :: a.outputShape, (fwdRaw a c pv).1⟩ := by
  unfold OpflowQNN.fwd
  rw [hpv]
  exact npReshapeNeg1_eq_ok _ _ _ hprod hres

/-- Witness for C1 at the concrete adapter `adapNoW` on the batch
`[[0], [2]]`: the forward output is the `2 × 1` array `[[1], [0]]`. -/
theorem c1_forward_shape_witness :
    (adapNoW.fwd 0 (some mat2) (some [])).1 = .ok ⟨[2, 1], [1, 0]⟩ :=
  c1_forward_shape adapNoW 0 mat2 (some []) [(0, [0, 2])] rfl (by decide) rfl

/-! ## C7: non-ListOp operators infer shape (1,) -/

/-- C7: output-shape inference returns `(1,)` for every operator that is not
exactly a `ListOp`: both leaf operators and strict subclasses of `ListOp`
(whatever children and combination function the subclass carries), since the
nominal `type(op) == ListOp` check treats subclasses as leaves. -/
theorem c7_non_listop_shape :
    inferShape .leaf = .ok [1] ∧
    ∀ (cs : List Op) (f : NDArr → NDArr), inferShape (.listOpSub cs f) = .ok [1] :=
  ⟨rfl, fun _ _ => rfl⟩

/-! ## C10: the zero placeholder handed to combo_fn -/

/-- C10: when an exact `ListOp`'s children all infer shape `(1,)`, the
zero-filled placeholder passed to `combo_fn` is the flat 1-D vector
`np.zeros(len(oplist))` — of shape `(len,)`, not `(len, 1)` — and only when
the shared child shape differs from `(1,)` is the placeholder of shape
`(len, *child_shape)`. -/
theorem c10_combo_placeholder (cs : List Op) (f : NDArr → NDArr)
    (s0 : List Nat) (ss : List (List Nat))
    (hcs : inferShapes cs = .ok (s0 :: ss))
    (hall : allEqHead (s0 :: ss) = true) :
    (s0 = [1] →
      inferShape (.listOp cs f) = .ok (f (zerosArr [cs.length])).shape ∧
      (zerosArr [cs.length]).shape = [cs.length] ∧
      (zerosArr [cs.length]).shape ≠ [cs.length, 1]) ∧
    (s0 ≠ [1] →
      inferShape (.listOp cs f) = .ok (f (zerosArr (cs.length :: s0))).shape) := by
  constructor
  · intro h1
    subst h1
    refine ⟨?_, rfl, by simp [zerosArr]⟩
    rw [inferShape, hcs]
    simp [hall, comboPlaceholder]
  · intro h1
    rw [inferShape, hcs]
    simp [hall, comboPlaceholder, h1]

/-- Witness for C10 on the `ListOp` with two leaf children and the identity
combination function: the placeholder is the flat vector of length 2, so the
inferred output shape is `(2,)`. -/
theorem c10_combo_placeholder_witness :
    inferShape (.listOp [.leaf, .leaf] id) = .ok (id (zerosArr [2])).shape :=
  ((c10_combo_placeholder [.leaf, .leaf] id [1] [[1]] rfl rfl).1 rfl).1

/-! ## C5: the shape-inconsistency error -/

/-- `Occurs t op`: the subterm `t` occurs in the operator tree `op`,
descending only through exact `ListOp` nodes (the only nodes whose children
`_get_output_shape_from_op` recurses into). -/
inductive Occurs : Op → Op → Prop where
  | refl (op : Op) : Occurs op op
  | child {t c : Op} {cs : List Op} {f : NDArr → NDArr} :
      c ∈ cs → Occurs t c → Occurs t (.listOp cs f)

theorem inferShapes_error {cs : List Op} {e : Err}
    (h : inferShapes cs = .error e) : ∃ c ∈ cs, inferShape c = .error e := by
  induction cs with
  | nil => simp [inferShapes] at h
  | cons o os ih =>
    rw [inferShapes] at h
    cases ho : inferShape o with
    | error e1 =>
      rw [ho] at h
      cases h
      exact ⟨o, by simp, ho⟩
    | ok s =>
      rw [ho] at h
      cases hos : inferShapes os with
      | error e1 =>
        rw [hos] at h
        cases h
        obtain ⟨c, hc, hce⟩ := ih hos
        exact ⟨c, by simp [hc], hce⟩
      | ok ss => rw [hos] at h; cases h

theorem mismatch_has_source (op : Op)
    (h : inferShape op = .error .qmlShapeError) :
    ∃ (cs : List Op) (f : NDArr → NDArr) (shapes : List (List Nat)),
      Occurs (.listOp cs f) op ∧ inferShapes cs = .ok shapes ∧
      allEqHead shapes = false := by
  match op with
  | .leaf => exact absurd h (by simp [inferShape])
  | .listOpSub cs f => exact absurd h (by simp [inferShape])
  | .listOp cs f =>
    rw [inferShape] at h
    cases hcs : inferShapes cs with
    | error e =>
      rw [hcs] at h
      cases h
      obtain ⟨c, hmem, hc⟩ := inferShapes_error hcs
      obtain ⟨cs1, f1, shapes, hocc, h1, h2⟩ := mismatch_has_source c hc
      exact ⟨cs1, f1, shapes, .child hmem hocc, h1, h2⟩
    | ok shapes =>
      rw [hcs] at h
      by_cases hall : allEqHead shapes = true
      · simp only [hall, if_true] at h
        cases shapes with
        | nil => simp at h
        | cons s0 ss => simp at h
      · exact ⟨cs, f, shapes, .refl _, hcs, by simpa using hall⟩
termination_by sizeOf op
decreasing_by
  have := List.sizeOf_lt_of_mem hmem
  simp only [Op.listOp.sizeOf_spec]
  omega

/-- C5: construction raises the shape-inconsistency error
(`QiskitMachineLearningError`) if and only if shape inference encounters an
exact `ListOp` whose children's shapes all infer successfully but are not
all equal: (1) at such a node the error is raised; (2) whenever the error is
raised, such a node occurs in the traversed operator tree (other failures —
e.g. the `IndexError` on an empty children list — are a different error);
(3) the error surfaces during `__init__`, which propagates it and constructs
no adapter. -/
theorem c5_shape_error_iff :
    (∀ (cs : List Op) (f : NDArr → NDArr) (shapes : List (List Nat)),
      inferShapes cs = .ok shapes → allEqHead shapes = false →
      inferShape (.listOp cs f) = .error .qmlShapeError) ∧
    (∀ op : Op, inferShape op = .error .qmlShapeError →
      ∃ (cs : List Op) (f : NDArr → NDArr) (shapes : List (List Nat)),
        Occurs (.listOp cs f) op ∧ inferShapes cs = .ok shapes ∧
        allEqHead shapes = false) ∧
    (∀ (op : Op) (ip wp : List Param) (b : Bool) (e : Engine),
      OpflowQNN.init op ip wp b e = .error .qmlShapeError ↔
      inferShape op = .error .qmlShapeError) := by
  refine ⟨?_, mismatch_has_source, ?_⟩
  · intro cs f shapes hcs hall
    rw [inferShape, hcs]
    simp [hall]
  · intro op ip wp b e
    unfold OpflowQNN.init
    cases inferShape op <;> simp

/-- Witness for C5 at a concrete `ListOp` whose two children infer shapes
`(1,)` and `(2,)`: inference raises the shape-inconsistency error. -/
theorem c5_shape_error_iff_witness :
    inferShape (.listOp [.leaf, .listOp [.leaf, .leaf] id] id) =
      .error .qmlShapeError :=
  c5_shape_error_iff.1 [.leaf, .listOp [.leaf, .leaf] id] id [[1], [2]] rfl rfl

/-! ## C4: gradient parameter order and the split at num_inputs -/

/-- C4: (1) construction differentiates the gradient expression with respect
to `input_params + weight_params` — inputs first, weights second — and
records `num_inputs` as the input-parameter count; (2) whenever
`_backward_batch` succeeds, the input-gradient array holds exactly the
columns `[0, num_inputs)` of the evaluated gradient rows and the
weight-gradient array exactly the columns `[num_inputs, end)`. -/
theorem c4_grad_order_and_split :
    (∀ (op : Op) (ip wp : List Param) (b : Bool) (e : Engine) (a2 : OpflowQNN),
      OpflowQNN.init op ip wp b e = .ok a2 →
      a2.gradTargetParams = ip ++ wp ∧ a2.numInputs = ip.length) ∧
    (∀ (a : OpflowQNN) (c : Cache) (input : Option Mat) (weights : Option (List ℚ))
      (pv : BatchBinding) (ig wg : NDArr) (c2 : Cache),
      batchBinding a input weights = .ok pv →
      a.backwardBatch c input weights = (.ok (ig, wg), c2) →
      ig.data = ((gradBatchRaw a c pv).1.map (fun r => r.take a.numInputs)).flatten ∧
      wg.data = ((gradBatchRaw a c pv).1.map (fun r => r.drop a.numInputs)).flatten) := by
  constructor
  · intro op ip wp b e a2 h
    unfold OpflowQNN.init at h
    cases hop : inferShape op with
    | error e1 => rw [hop] at h; cases h
    | ok shape => rw [hop] at h; cases h; exact ⟨rfl, rfl⟩
  · intro a c input weights pv ig wg c2 hpv h
    unfold OpflowQNN.backwardBatch at h
    rw [hpv] at h
    simp only [] at h
    unfold splitGrads at h
    cases hig : npReshapeNeg1 ((gradBatchRaw a c pv).1.map
        (fun r => r.take a.numInputs)).flatten (a.outputShape ++ [a.numInputs]) with
    | error e1 => rw [hig] at h; cases h
    | ok arr1 =>
      rw [hig] at h
      cases hwg : npReshapeNeg1 ((gradBatchRaw a c pv).1.map
          (fun r => r.drop a.numInputs)).flatten (a.outputShape ++ [a.numWeights]) with
      | error e1 => rw [hwg] at h; cases h
      | ok arr2 =>
        rw [hwg] at h
        cases h
        exact ⟨npReshapeNeg1_data _ _ _ hig, npReshapeNeg1_data _ _ _ hwg⟩

/-- Witness for C4: the concrete adapter built from a leaf with input
parameter `0` and weight parameter `1` differentiates against `[0] ++ [1]`,
and on the batch `[[4]]` with weights `[7]` (gradient row `[2, 3]`) the
split yields input-gradient data `[2]` and weight-gradient data `[3]`. -/
theorem c4_grad_order_and_split_witness :
    (adapPW.gradTargetParams = [0] ++ [1] ∧ adapPW.numInputs = [0].length) ∧
    ((⟨[1, 1, 1], [2]⟩ : NDArr).data =
        ((gradBatchRaw adapPW 0 [(0, [4]), (1, [7])]).1.map
          (fun r => r.take adapPW.numInputs)).flatten ∧
      (⟨[1, 1, 1], [3]⟩ : NDArr).data =
        ((gradBatchRaw adapPW 0 [(0, [4]), (1, [7])]).1.map
          (fun r => r.drop adapPW.numInputs)).flatten) :=
  ⟨c4_grad_order_and_split.1 .leaf [0] [1] false engW adapPW rfl,
   c4_grad_order_and_split.2 adapPW 0 (some mat1) (some [7]) [(0, [4]), (1, [7])]
     ⟨[1, 1, 1], [2]⟩ ⟨[1, 1, 1], [3]⟩ 0 rfl rfl⟩

/-! ## C2: backward output shapes -/

/-- C2 counterexample: on an adapter with `p = 1` input parameter and
`w = 0` weight parameters (output shape `(1,)`), a batch of two rows makes
`_backward_batch` raise numpy's `ValueError` (reshaping a size-0 array into
`(-1, 1, 0)`) instead of returning a pair of arrays of shapes `(2, 1, 1)`
and `(2, 1, 0)`. -/
theorem c2_backward_shapes_counterexample :
    (adapNoW.backwardBatch 0 (some mat2) (some [])).1 = .error .valueError := rfl

/-- C2 amended: when both parameter counts are nonzero (so that neither
final reshape divides by zero) and the engine's evaluated gradient is a
matrix of `n * output_shape.prod` rows of length `p + w`, `_backward_batch`
returns a pair of arrays of shapes `(n, *output_shape, p)` and
`(n, *output_shape, w)`. -/
theorem c2_backward_shapes (a : OpflowQNN) (c : Cache) (m : Mat)
    (weights : Option (List ℚ)) (pv : BatchBinding)
    (hpv : batchBinding a (some m) weights = .ok pv)
    (hp : 0 < a.numInputs) (hw : 0 < a.numWeights)
    (hprod : 0 < a.outputShape.prod)
    (hrow : ∀ r ∈ (gradBatchRaw a c pv).1, r.length = a.numInputs + a.numWeights)
    (hn : (gradBatchRaw a c pv).1.length = m.nrows * a.outputShape.prod) :
    ∃ (ig wg : NDArr) (c2 : Cache),
      a.backwardBatch c (some m) weights = (.ok (ig, wg), c2) ∧
      ig.shape = m.nrows :: (a.outputShape ++ [a.numInputs]) ∧
      wg.shape = m.nrows :: (a.outputShape ++ [a.numWeights]) := by
  have higlen : (((gradBatchRaw a c pv).1.map (fun r => r.take a.numInputs)).flatten).length
      = m.nrows * (a.outputShape ++ [a.numInputs]).prod := by
    rw [flatten_take_length a.numInputs a.numWeights _ hrow, hn]
    simp [Nat.mul_assoc]
  have hwglen : (((gradBatchRaw a c pv).1.map (fun r => r.drop a.numInputs)).flatten).length
      = m.nrows * (a.outputShape ++ [a.numWeights]).prod := by
    rw [flatten_drop_length a.numInputs a.numWeights _ hrow, hn]
    simp [Nat.mul_assoc]
  have higp : 0 < (a.outputShape ++ [a.numInputs]).prod := by
    simp [Nat.pos_iff_ne_zero] at hp hprod ⊢
    exact ⟨hprod, hp⟩
  have hwgp : 0 < (a.outputShape ++ [a.numWeights]).prod := by
    simp [Nat.pos_iff_ne_zero] at hw hprod ⊢
    exact ⟨hprod, hw⟩
  refine ⟨⟨m.nrows :: (a.outputShape ++ [a.numInputs]),
            ((gradBatchRaw a c pv).1.map (fun r => r.take a.numInputs)).flatten⟩,
          ⟨m.nrows :: (a.outputShape ++ [a.numWeights]),
            ((gradBatchRaw a c pv).1.map (fun r => r.drop a.numInputs)).flatten⟩,
          (gradBatchRaw a c pv).2, ?_, rfl, rfl⟩
  unfold OpflowQNN.backwardBatch
  rw [hpv]
  simp only []
  unfold splitGrads
  rw [npReshapeNeg1_eq_ok _ _ _ higp higlen, npReshapeNeg1_eq_ok _ _ _ hwgp hwglen]

/-- Witness for the amended C2 at the concrete adapter with one input and
one weight parameter on the batch `[[4]]` with weights `[7]`. -/
theorem c2_backward_shapes_witness :
    ∃ (ig wg : NDArr) (c2 : Cache),
      adapPW.backwardBatch 0 (some mat1) (some [7]) = (.ok (ig, wg), c2) ∧
      ig.shape = mat1.nrows :: (adapPW.outputShape ++ [adapPW.numInputs]) ∧
      wg.shape = mat1.nrows :: (adapPW.outputShape ++ [adapPW.numWeights]) :=
  c2_backward_shapes adapPW 0 mat1 (some [7]) [(0, [4]), (1, [7])] rfl
    (by decide) (by decide) (by decide) (by decide) rfl

/-! ## C6: empty weight-parameter list -/

/-- C6: with an empty weight-parameter list (here `p = 1`, `w = 0`, output
shape `(1,)`, batch `[[4]]`, weights `[]`), both backward paths raise
numpy's `ValueError` — `reshape(-1, 1, 0)` cannot infer the `-1` dimension
because the known dimensions multiply to zero — instead of returning a
weight-gradient array with a zero-length final axis. -/
theorem c6_empty_weights_raises :
    (adapNoW.backward 0 (some mat1) (some [])).1 = .error .valueError ∧
    (adapNoW.backwardBatch 0 (some mat1) (some [])).1 = .error .valueError :=
  ⟨rfl, rfl⟩

/-! ## C8: absent or empty forward arguments -/

/-- C8 counterexample: an adapter with no input parameters and one weight
parameter, called with an absent input array and present weights — the
parameter lists permit the absent/empty argument, yet the binding
construction fails, because the weight comprehension reads
`input_data.shape[0]` to broadcast each weight. -/
theorem c8_forward_absent_counterexample :
    (adapNoI.fwd 0 none (some [5])).1 = .error .noneError := rfl

theorem inputPairs_ok_of (ps : List Param) (input : Option Mat)
    (h : ps = [] ∨ ∃ m, input = some m ∧ ps.length ≤ m.ncols) :
    ∃ ip, inputPairs ps input = .ok ip := by
  cases ps with
  | nil => exact ⟨[], rfl⟩
  | cons q qs =>
    rcases h with h0 | ⟨m, hm, hle⟩
    · cases h0
    · subst hm
      refine ⟨(q :: qs).enum.map (fun ipr => (ipr.2, m.col ipr.1)), ?_⟩
      simp only [inputPairs]
      rw [if_pos hle]

theorem weightPairs_ok_of (ps : List Param) (input : Option Mat)
    (weights : Option (List ℚ))
    (h : ps = [] ∨ ∃ ws m, weights = some ws ∧ ws ≠ [] ∧
        ps.length ≤ ws.length ∧ input = some m) :
    ∃ wp, weightPairs ps input weights = .ok wp := by
  cases ps with
  | nil => exact ⟨[], rfl⟩
  | cons q qs =>
    rcases h with h0 | ⟨ws, m, hws, hne, hle, hm⟩
    · cases h0
    · subst hws; subst hm
      refine ⟨(q :: qs).enum.map
        (fun ipr => (ipr.2, List.replicate m.nrows (ws.getD ipr.1 0))), ?_⟩
      have hlen0 : ¬ ws.length = 0 := by simpa [List.length_eq_zero] using hne
      simp only [weightPairs]
      rw [if_neg hlen0, if_pos hle]

/-- C8 amended: `_forward` accepts an absent or empty input array and an
absent or empty weight array whenever the corresponding parameter list
permits it — provided additionally that the input array is present whenever
the weight-parameter list is nonempty (its row count sets the weight
broadcast length).  The binding construction then succeeds and, whenever
the engine's evaluated result size is a multiple of `output_shape.prod`
(nonzero), so does the evaluation and reshape. -/
theorem c8_forward_empty_ok (a : OpflowQNN) (c : Cache) (input : Option Mat)
    (weights : Option (List ℚ))
    (hin : a.inputParams = [] ∨ ∃ m, input = some m ∧
        a.inputParams.length ≤ m.ncols)
    (hw : a.weightParams = [] ∨ ∃ ws m, weights = some ws ∧ ws ≠ [] ∧
        a.weightParams.length ≤ ws.length ∧ input = some m)
    (hprod : 0 < a.outputShape.prod)
    (hdvd : ∀ pv, a.outputShape.prod ∣ ((fwdRaw a c pv).1).length) :
    ∃ (arr : NDArr) (c2 : Cache), a.fwd c input weights = (.ok arr, c2) := by
  obtain ⟨ip, hip⟩ := inputPairs_ok_of a.inputParams input hin
  obtain ⟨wp, hwp⟩ := weightPairs_ok_of a.weightParams input weights hw
  have hpv : batchBinding a input weights = .ok (ip ++ wp) := by
    unfold batchBinding
    rw [hip, hwp]
  have hok : npReshapeNeg1 (fwdRaw a c (ip ++ wp)).1 a.outputShape =
      .ok ⟨((fwdRaw a c (ip ++ wp)).1).length / a.outputShape.prod :: a.outputShape,
        (fwdRaw a c (ip ++ wp)).1⟩ := by
    unfold npReshapeNeg1
    rw [if_neg (Nat.pos_iff_ne_zero.mp hprod), if_pos (hdvd (ip ++ wp))]
  have hfwd : a.fwd c input weights =
      (npReshapeNeg1 (fwdRaw a c (ip ++ wp)).1 a.outputShape,
        (fwdRaw a c (ip ++ wp)).2) := by
    unfold OpflowQNN.fwd
    rw [hpv]
  exact ⟨_, _, by rw [hfwd, hok]⟩

/-- Witness for the amended C8: an adapter with no input parameters and no
weight parameters evaluates `_forward` successfully on an absent input and
absent weights. -/
theorem c8_forward_empty_ok_witness :
    ∃ (arr : NDArr) (c2 : Cache),
      OpflowQNN.fwd
        { inputParams := [], weightParams := [], gradTargetParams := []
          numInputs := 0, numWeights := 0, outputShape := [1]
          hasSampler := false, engine := engW } 0 none none = (.ok arr, c2) :=
  c8_forward_empty_ok _ 0 none none (Or.inl rfl) (Or.inl rfl) (by decide)
    (fun _ => ⟨2, rfl⟩)

/-! ## C9: determinism without an execution context -/

theorem fwd_cache_invariant (a : OpflowQNN) (c : Cache) (input : Option Mat)
    (weights : Option (List ℚ)) (hs : a.hasSampler = false) :
    a.fwd c input weights = ((a.fwd c input weights).1, c) := by
  unfold OpflowQNN.fwd
  cases hpv : batchBinding a input weights with
  | error e => rfl
  | ok pv => simp [fwdRaw, hs]

theorem backwardBatch_cache_invariant (a : OpflowQNN) (c : Cache)
    (input : Option Mat) (weights : Option (List ℚ)) (hs : a.hasSampler = false) :
    a.backwardBatch c input weights = ((a.backwardBatch c input weights).1, c) := by
  unfold OpflowQNN.backwardBatch
  cases hpv : batchBinding a input weights with
  | error e => rfl
  | ok pv => simp [gradBatchRaw, hs]

theorem backRows_cache_invariant (a : OpflowQNN) (m : Mat)
    (weights : Option (List ℚ)) (hs : a.hasSampler = false) :
    ∀ (l : List Nat) (c : Cache), (backRows a m weights l c).2 = c := by
  intro l
  induction l with
  | nil => intro c; rfl
  | cons r rs ih =>
    intro c
    unfold backRows
    cases hrb : rowBinding a m weights r with
    | error e => rfl
    | ok sb =>
      simp only [gradRowRaw, hs, Bool.false_eq_true, if_false]
      cases hfx : fixRow (a.numInputs + a.numWeights)
          (a.engine.directGradRow sb) with
      | error e => rfl
      | ok row =>
        rcases hbr : backRows a m weights rs c with ⟨b1, b2⟩
        have hc := ih c
        rw [hbr] at hc
        cases b1 with
        | error e => simpa [hbr] using hc
        | ok rows => simpa [hbr] using hc

theorem backward_cache_invariant (a : OpflowQNN) (c : Cache)
    (input : Option Mat) (weights : Option (List ℚ)) (hs : a.hasSampler = false) :
    a.backward c input weights = ((a.backward c input weights).1, c) := by
  cases input with
  | none => rfl
  | some m =>
    change backFinish a (backRows a m weights (List.range m.nrows) c) =
      ((backFinish a (backRows a m weights (List.range m.nrows) c)).1, c)
    have hc := backRows_cache_invariant a m weights hs (List.range m.nrows) c
    rcases hbr : backRows a m weights (List.range m.nrows) c with ⟨b1, b2⟩
    rw [hbr] at hc
    subst hc
    cases b1 with
    | error e => rfl
    | ok rows => rfl

/-- C9: on an adapter with no execution context (no quantum instance, hence
no samplers), `_forward`, `_backward_batch` and `_backward` leave the
evaluation state untouched, so a second invocation with identical input and
weight arrays returns the identical result: pure symbolic evaluation with
no caching side effects. -/
theorem c9_no_sampler_deterministic (a : OpflowQNN) (c : Cache)
    (input : Option Mat) (weights : Option (List ℚ))
    (hs : a.hasSampler = false) :
    (a.fwd c input weights = ((a.fwd c input weights).1, c) ∧
      a.fwd ((a.fwd c input weights).2) input weights = a.fwd c input weights) ∧
    (a.backwardBatch c input weights = ((a.backwardBatch c input weights).1, c) ∧
      a.backwardBatch ((a.backwardBatch c input weights).2) input weights =
        a.backwardBatch c input weights) ∧
    (a.backward c input weights = ((a.backward c input weights).1, c) ∧
      a.backward ((a.backward c input weights).2) input weights =
        a.backward c input weights) := by
  have h1 := fwd_cache_invariant a c input weights hs
  have h2 := backwardBatch_cache_invariant a c input weights hs
  have h3 := backward_cache_invariant a c input weights hs
  refine ⟨⟨h1, ?_⟩, ⟨h2, ?_⟩, ⟨h3, ?_⟩⟩
  · rw [show (a.fwd c input weights).2 = c from congrArg Prod.snd h1]
  · rw [show (a.backwardBatch c input weights).2 = c from congrArg Prod.snd h2]
  · rw [show (a.backward c input weights).2 = c from congrArg Prod.snd h3]

/-- Witness for C9 at the concrete sampler-free adapter `adapPW`: a second
`_forward` invocation returns the identical result. -/
theorem c9_no_sampler_deterministic_witness :
    adapPW.fwd ((adapPW.fwd 0 (some mat1) (some [7])).2) (some mat1) (some [7]) =
      adapPW.fwd 0 (some mat1) (some [7]) :=
  (c9_no_sampler_deterministic adapPW 0 (some mat1) (some [7]) rfl).1.2

/-! ## C3: the per-row and batched backward paths agree -/

theorem inputPairs_ok_inv {ps : List Param} {m : Mat} {ip : BatchBinding}
    (h : inputPairs ps (some m) = .ok ip) : ps = [] ∨ ps.length ≤ m.ncols := by
  cases ps with
  | nil => exact Or.inl rfl
  | cons q qs =>
    right
    by_contra hle
    simp only [inputPairs] at h
    rw [if_neg hle] at h
    cases h

theorem weightPairs_ok_inv {ps : List Param} {input : Option Mat}
    {weights : Option (List ℚ)} {wp : BatchBinding}
    (h : weightPairs ps input weights = .ok wp) :
    ps = [] ∨ ∃ ws, weights = some ws ∧ ps.length ≤ ws.length := by
  cases ps with
  | nil => exact Or.inl rfl
  | cons q qs =>
    right
    cases weights with
    | none => simp only [weightPairs] at h; cases h
    | some ws =>
      refine ⟨ws, rfl, ?_⟩
      cases input with
      | none =>
        simp only [weightPairs] at h
        by_cases h0 : ws.length = 0
        · rw [if_pos h0] at h; cases h
        · rw [if_neg h0] at h; cases h
      | some m =>
        simp only [weightPairs] at h
        by_cases h0 : ws.length = 0
        · rw [if_pos h0] at h; cases h
        · rw [if_neg h0] at h
          by_contra hle
          rw [if_neg hle] at h
          cases h

/-- When the batched binding of `_backward_batch` succeeds on an input
matrix, the per-row binding of `_backward` succeeds on every row, with the
row's input scalars followed by the weight scalars. -/
theorem rowBinding_of_batch (a : OpflowQNN) (m : Mat)
    (weights : Option (List ℚ)) (pv : BatchBinding)
    (hpv : batchBinding a (some m) weights = .ok pv) (r : Nat) :
    rowBinding a m weights r = .ok (inputRowVals a.inputParams m r ++
      weightRowVals a.weightParams (weights.getD [])) := by
  unfold batchBinding at hpv
  cases hip : inputPairs a.inputParams (some m) with
  | error e => rw [hip] at hpv; cases hpv
  | ok ip =>
    rw [hip] at hpv
    cases hwp : weightPairs a.weightParams (some m) weights with
    | error e => rw [hwp] at hpv; cases hpv
    | ok wp =>
      have hips := inputPairs_ok_inv hip
      have hwps := weightPairs_ok_inv hwp
      unfold rowBinding
      cases hpi : a.inputParams with
      | nil =>
        cases hpw : a.weightParams with
        | nil => simp [rowBindingAux, inputRowVals, weightRowVals]
        | cons wq wqs =>
          rcases hwps with h0 | ⟨ws, hws, hle⟩
          · rw [hpw] at h0; cases h0
          · rw [hpw] at hle
            subst hws
            simp only [rowBindingAux, Option.getD_some]
            rw [if_pos hle]
            simp [inputRowVals]
      | cons q qs =>
        rcases hips with h0 | hle
        · rw [hpi] at h0; cases h0
        · rw [hpi] at hle
          cases hpw : a.weightParams with
          | nil =>
            simp only [rowBindingAux]
            rw [if_pos hle]
            simp [weightRowVals]
          | cons wq wqs =>
            rcases hwps with h0 | ⟨ws, hws, hle2⟩
            · rw [hpw] at h0; cases h0
            · rw [hpw] at hle2
              subst hws
              simp only [rowBindingAux, Option.getD_some]
              rw [if_pos hle, if_pos hle2]

/-- When every row binding succeeds and every evaluated row gradient has the
expected `p + w` length, the per-row loop of `_backward` fills `grad_all`
with exactly the per-row engine gradients (whatever the sampler caching
does to the threaded cache). -/
theorem backRows_ok (a : OpflowQNN) (m : Mat) (weights : Option (List ℚ))
    (pl : Nat → RowBinding)
    (hpure : ∀ (c2 : Cache) (sb : RowBinding),
      (a.engine.samplerGradRow c2 sb).1 = a.engine.directGradRow sb) :
    ∀ (l : List Nat) (c : Cache),
      (∀ r ∈ l, rowBinding a m weights r = .ok (pl r)) →
      (∀ r ∈ l, (a.engine.directGradRow (pl r)).length =
        a.numInputs + a.numWeights) →
      (backRows a m weights l c).1 =
        .ok (l.map (fun r => a.engine.directGradRow (pl r))) := by
  intro l
  induction l with
  | nil => intro c _ _; rfl
  | cons r rs ih =>
    intro c hrb hlen
    have hraw : ∀ c2 : Cache, (gradRowRaw a c2 (pl r)).1 =
        a.engine.directGradRow (pl r) := by
      intro c2
      cases hhs : a.hasSampler <;> simp [gradRowRaw, hhs, hpure]
    have hfix : fixRow (a.numInputs + a.numWeights)
        (a.engine.directGradRow (pl r)) = .ok (a.engine.directGradRow (pl r)) := by
      unfold fixRow
      rw [if_pos (hlen r (by simp))]
    unfold backRows
    rw [hrb r (by simp)]
    simp only []
    rw [hraw c, hfix]
    have hrec := ih (gradRowRaw a c (pl r)).2
      (fun r2 h2 => hrb r2 (by simp [h2]))
      (fun r2 h2 => hlen r2 (by simp [h2]))
    rcases hbr : backRows a m weights rs (gradRowRaw a c (pl r)).2 with ⟨b1, b2⟩
    rw [hbr] at hrec
    simp only [] at hrec
    subst hrec
    rfl

/-- C3: under the engine contract that the two gradient call patterns agree
— sampler-backed evaluation is cache-transparent, and the batched evaluation
over the batched binding equals the stack of the per-row evaluations over
the per-row bindings, each row of length `p + w` — `_backward` (per-row
path) and `_backward_batch` (batched path) return identical results: the
same gradient pair, or the same error. -/
theorem c3_backward_paths_agree (a : OpflowQNN) (c : Cache) (m : Mat)
    (weights : Option (List ℚ)) (pv : BatchBinding)
    (hpv : batchBinding a (some m) weights = .ok pv)
    (hpure1 : ∀ (c2 : Cache) (pv2 : BatchBinding),
      (a.engine.samplerGradBatch c2 pv2).1 = a.engine.directGradBatch pv2)
    (hpure2 : ∀ (c2 : Cache) (sb : RowBinding),
      (a.engine.samplerGradRow c2 sb).1 = a.engine.directGradRow sb)
    (hcoh : a.engine.directGradBatch pv = (List.range m.nrows).map
      (fun r => a.engine.directGradRow (inputRowVals a.inputParams m r ++
        weightRowVals a.weightParams (weights.getD []))))
    (hlen : ∀ r < m.nrows,
      (a.engine.directGradRow (inputRowVals a.inputParams m r ++
        weightRowVals a.weightParams (weights.getD []))).length =
      a.numInputs + a.numWeights) :
    (a.backward c (some m) weights).1 = (a.backwardBatch c (some m) weights).1 := by
  have hbatchraw : (gradBatchRaw a c pv).1 = a.engine.directGradBatch pv := by
    cases hhs : a.hasSampler <;> simp [gradBatchRaw, hhs, hpure1]
  have hrows := backRows_ok a m weights
    (fun r => inputRowVals a.inputParams m r ++
      weightRowVals a.weightParams (weights.getD [])) hpure2
    (List.range m.nrows) c
    (fun r _ => rowBinding_of_batch a m weights pv hpv r)
    (fun r hr => hlen r (List.mem_range.mp hr))
  rcases hbr : backRows a m weights (List.range m.nrows) c with ⟨b1, b2⟩
  rw [hbr] at hrows
  have hb1 : b1 = .ok ((List.range m.nrows).map
      (fun r => a.engine.directGradRow (inputRowVals a.inputParams m r ++
        weightRowVals a.weightParams (weights.getD [])))) := hrows
  subst hb1
  have hL : (a.backward c (some m) weights).1 =
      splitGrads a ((List.range m.nrows).map
        (fun r => a.engine.directGradRow (inputRowVals a.inputParams m r ++
          weightRowVals a.weightParams (weights.getD [])))) := by
    show (backFinish a (backRows a m weights (List.range m.nrows) c)).1 = _
    rw [hbr]
    rfl
  have hR : (a.backwardBatch c (some m) weights).1 =
      splitGrads a ((List.range m.nrows).map
        (fun r => a.engine.directGradRow (inputRowVals a.inputParams m r ++
          weightRowVals a.weightParams (weights.getD [])))) := by
    unfold OpflowQNN.backwardBatch
    rw [hpv]
    show splitGrads a (gradBatchRaw a c pv).1 = _
    rw [hbatchraw, hcoh]
  rw [hL, hR]

/-- Witness for C3 at the concrete adapter with one input and one weight
parameter on the batch `[[4]]` with weights `[7]`: both paths return the
same gradient pair. -/
theorem c3_backward_paths_agree_witness :
    (adapPW.backward 0 (some mat1) (some [7])).1 =
      (adapPW.backwardBatch 0 (some mat1) (some [7])).1 :=
  c3_backward_paths_agree adapPW 0 mat1 (some [7]) [(0, [4]), (1, [7])] rfl
    (fun _ _ => rfl) (fun _ _ => rfl) rfl (fun _ _ => rfl)

end OpflowQNNModel
